import Mathlib

/-!
Verification of the script-interpreter engine (`package script`, file
`src/vendor/sigs.k8s.io/controller-runtime/pkg/controller/name.go`).

The Go code is shallowly embedded: Go strings become Lean `String`
(scanned as their `List Char` data), Go `time.Duration` values become
`Nat`, Go `error` values become an explicit inductive `Err` type whose
wrapping constructors mirror `fmt.Errorf("%w")`, `CommandError`,
`stopError` and `waitError`, and the `errors.As` / `errors.Is`
unwrapping walks become recursive predicates.  Mutation of `*State`
becomes explicit state passing.  The potentially unbounded
retry-until-success loop of `Engine.Execute` takes a fuel parameter;
the cancellation context is modelled as a virtual clock plus an
optional deadline, with backoff sleeps advancing the clock.
-/

set_option maxRecDepth 10000

namespace Script

/-- Go `type expectedStatus string` (name.go line 518). -/
abbrev expectedStatus := String

/-- `success expectedStatus = ""` -/
def success : expectedStatus := ""

/-- `failure expectedStatus = "!"` -/
def failure : expectedStatus := "!"

/-- `successOrFailure expectedStatus = "?"` -/
def successOrFailure : expectedStatus := "?"

/-- `successRetryOnFailure expectedStatus = "*"` -/
def successRetryOnFailure : expectedStatus := "*"

/-- `failureRetryOnSuccess expectedStatus = "!*"` -/
def failureRetryOnSuccess : expectedStatus := "!*"

/-- Go `type argFragment struct { s string; quoted bool }` (name.go line 528). -/
structure argFragment where
  s : String
  quoted : Bool
deriving Repr, DecidableEq

/-- Go `type condition struct { want bool; tag string }` (name.go line 533). -/
structure condition where
  want : Bool
  tag : String
deriving Repr, DecidableEq

/-- Go `type command struct {...}` (name.go line 504).  `origArgs` and
`args` are `nil` until `Execute` expands the raw arguments; a Go `nil`
slice and the empty slice are both `[]` here. -/
structure command where
  file : String := ""
  line : Nat := 0
  want : expectedStatus := ""
  conds : List condition := []
  name : String := ""
  rawArgs : List (List argFragment) := []
  origArgs : List String := []
  args : List String := []
  background : Bool := false
deriving Repr, DecidableEq

/-- The Go `error` values that flow through the engine.  Constructors
that carry an `inner : Err` correspond to wrappers whose `Unwrap` (or
`%w` formatting) exposes the inner error to `errors.As`/`errors.Is`:
`atLine` is Execute's `"file:line: %w"` wrap, `parseWrap` is
`"%w: %w"` with `ParseError`, `commandError` is the `*CommandError`
struct, `waitError` wraps a background command's failure.
`stopError`, `canceled`, `deadlineExceeded` and `unexpectedSuccess`
are leaves.  `stopError`, `waitError`, `commandError` and
`unexpectedSuccess` are modelled from the spec (their declarations
live in the package's other files, which are not among the provided
sources; name.go only matches on them). -/
inductive Err where
  | msg (text : String)
  | wrap (text : String) (inner : Err)
  | parseWrap (inner : Err)
  | atLine (file : String) (line : Nat) (inner : Err)
  | commandError (file : String) (line : Nat) (name : String) (args : List String) (inner : Err)
  | stopError (text : String)
  | waitError (inner : Err)
  | canceled
  | deadlineExceeded
  | unexpectedSuccess
deriving Repr, DecidableEq

namespace Err

/-- `errors.As(err, &stopError{})`: walks the unwrap chain looking for
a `stopError`. -/
def isStop : Err → Bool
  | .stopError _ => true
  | .wrap _ i => i.isStop
  | .parseWrap i => i.isStop
  | .atLine _ _ i => i.isStop
  | .commandError _ _ _ _ i => i.isStop
  | .waitError i => i.isStop
  | _ => false

/-- `errors.As(err, &waitError{})`. -/
def isWait : Err → Bool
  | .waitError _ => true
  | .wrap _ i => i.isWait
  | .parseWrap i => i.isWait
  | .atLine _ _ i => i.isWait
  | .commandError _ _ _ _ i => i.isWait
  | _ => false

/-- `errors.Is(err, context.DeadlineExceeded) || errors.Is(err, context.Canceled)`. -/
def isCancel : Err → Bool
  | .canceled => true
  | .deadlineExceeded => true
  | .wrap _ i => i.isCancel
  | .parseWrap i => i.isCancel
  | .atLine _ _ i => i.isCancel
  | .commandError _ _ _ _ i => i.isCancel
  | .waitError i => i.isCancel
  | _ => false

/-- `errors.As(err, new(*CommandError))`, used by Execute's `lineErr`. -/
def isCmdErr : Err → Bool
  | .commandError _ _ _ _ _ => true
  | .wrap _ i => i.isCmdErr
  | .parseWrap i => i.isCmdErr
  | .atLine _ _ i => i.isCmdErr
  | .waitError i => i.isCmdErr
  | _ => false

/-- The message of the `stopError` found by `errors.As` (used for
`s.Logf("%v\n", stop)`). -/
def stopMsg : Err → String
  | .stopError t => t
  | .wrap _ i => i.stopMsg
  | .parseWrap i => i.stopMsg
  | .atLine _ _ i => i.stopMsg
  | .commandError _ _ _ _ i => i.stopMsg
  | .waitError i => i.stopMsg
  | _ => ""

end Err

deriving instance DecidableEq for Except

/-- `const argSepChars = " \t\r\n#"` (name.go line 538). -/
def argSepChars : List Char := [' ', '\t', '\r', '\n', '#']

/-- `strings.HasPrefix` at the character level (Go strings are byte
sequences; the Substring-based `String.startsWith` does not reduce in
the kernel, so prefix tests are taken on the character data). -/
def hasPrefix (s pre : String) : Bool := pre.data.isPrefixOf s.data

/-- `strings.HasSuffix` at the character level. -/
def hasSuffix (s suf : String) : Bool := suf.data.isSuffixOf s.data

/-- The characters `unicode.IsSpace` reports, restricted to ASCII. -/
def isSpaceChar (c : Char) : Bool := c ∈ [' ', '\t', '\n', '\x0b', '\x0c', '\r']

/-- `strings.TrimSpace` at the character level. -/
def trimSpace (s : String) : String :=
  ⟨((s.data.dropWhile isSpaceChar).reverse.dropWhile isSpaceChar).reverse⟩

/-- `len(rawArg) == 1 && !rawArg[0].quoted`: the text of a raw
argument made of exactly one unquoted fragment. -/
def soleUnquoted : List argFragment → Option String
  | [⟨arg, false⟩] => some arg
  | _ => none

/-- The `flushArg` closure of `parse` (name.go lines 554-601): the
first unquoted single-fragment token may be a status marker, a
condition guard, or the command name; later tokens become raw
arguments. -/
def flushArg (cmd : command) (rawArg : List argFragment) : Except String command :=
  if rawArg = [] then .ok cmd
  else
    match soleUnquoted rawArg with
    | some arg =>
      if cmd.name = "" then
        if arg = failure ∨ arg = successOrFailure ∨ arg = successRetryOnFailure
            ∨ arg = failureRetryOnSuccess then
          if cmd.want ≠ "" then .error "duplicated token"
          else .ok { cmd with want := arg }
        else if hasPrefix arg "[" ∧ hasSuffix arg "]" then
          let inner := trimSpace ⟨(arg.data.drop 1).dropLast⟩
          let (want, tag) :=
            if hasPrefix inner "!" then (false, trimSpace ⟨inner.data.drop 1⟩) else (true, inner)
          if tag = "" then .error "empty condition"
          else .ok { cmd with conds := cmd.conds ++ [⟨want, tag⟩] }
        else if arg = "" then .error "empty command"
        else .ok { cmd with name := arg }
      else .ok { cmd with rawArgs := cmd.rawArgs ++ [rawArg] }
    | none => .ok { cmd with rawArgs := cmd.rawArgs ++ [rawArg] }

/-- The final `&`-marker check of `parse` (name.go lines 650-667). -/
def parseFinish (cmd : command) : Except String (Option command) :=
  if cmd.name = "" then
    if cmd.want ≠ "" ∨ cmd.conds ≠ [] ∨ cmd.rawArgs ≠ [] ∨ cmd.background then
      .error "missing command"
    else .ok none
  else
    match cmd.rawArgs.getLast? with
    | some [⟨"&", false⟩] =>
      .ok (some { cmd with background := true, rawArgs := cmd.rawArgs.dropLast })
    | _ => .ok (some cmd)

/-- Closing the current text chunk into the pending raw argument
(`rawArg = append(rawArg, argFragment{s: line[start:i]})` guarded by
`start >= 0`). -/
def pushChunk (rawArg : List argFragment) (chunk : Option (List Char)) : List argFragment :=
  match chunk with
  | some cs => rawArg ++ [⟨⟨cs⟩, false⟩]
  | none => rawArg

/-- The character loop of `parse` (name.go lines 603-648).  `chunk`
plays the role of the `start` index: `none` is `start < 0`, and
`some cs` holds the characters `line[start:i]` scanned so far.  The
quote-doubling test needs one character of lookahead (Go's
`i+1 < len(line) && line[i+1] == '\''`), so the loop cases on whether
a next character exists; `parseLoop_cons` restates the two cons cases
as one step. -/
def parseLoop (cmd : command) (rawArg : List argFragment) (chunk : Option (List Char))
    (quoted : Bool) : List Char → Except String (Option command)
  | [] =>
    if quoted then .error "unterminated quoted argument"
    else
      match flushArg cmd (pushChunk rawArg chunk) with
      | .error e => .error e
      | .ok cmd => parseFinish cmd
  | [c] =>
    if ¬quoted ∧ c ∈ argSepChars then
      match flushArg cmd (pushChunk rawArg chunk) with
      | .error e => .error e
      | .ok cmd =>
        if c = '#' then parseFinish cmd
        else parseLoop cmd [] none false []
    else if c = '\'' then
      if ¬quoted then parseLoop cmd (pushChunk rawArg chunk) (some []) true []
      else
        -- i+1 < len(line) is false: this closes the quoted chunk.
        parseLoop cmd (rawArg ++ [⟨⟨chunk.getD []⟩, true⟩]) (some []) false []
    else
      parseLoop cmd rawArg (some ((chunk.getD []) ++ [c])) quoted []
  | c :: c2 :: rest2 =>
    if ¬quoted ∧ c ∈ argSepChars then
      match flushArg cmd (pushChunk rawArg chunk) with
      | .error e => .error e
      | .ok cmd =>
        if c = '#' then parseFinish cmd
        else parseLoop cmd [] none false (c2 :: rest2)
    else if c = '\'' then
      if ¬quoted then parseLoop cmd (pushChunk rawArg chunk) (some []) true (c2 :: rest2)
      else if c2 = '\'' then
        -- 'foo''bar' means foo'bar: the new chunk starts AT the second
        -- quote (Go sets start = i+1 and then skips over it), so the
        -- literal quote character is carried in the next fragment.
        parseLoop cmd (rawArg ++ [⟨⟨chunk.getD []⟩, true⟩]) (some ['\'']) true rest2
      else
        parseLoop cmd (rawArg ++ [⟨⟨chunk.getD []⟩, true⟩]) (some []) false (c2 :: rest2)
    else
      parseLoop cmd rawArg (some ((chunk.getD []) ++ [c])) quoted (c2 :: rest2)

/-- `parse` (name.go line 546): parse a single script line. -/
def parse (filename : String) (lineno : Nat) (line : String) : Except String (Option command) :=
  parseLoop { file := filename, line := lineno } [] none false line.data

/-- The text of an argument: the concatenation of its fragments. -/
def argText (frags : List argFragment) : String :=
  String.join (frags.map (·.s))

/-- The argument strings of a parsed command, unexpanded. -/
def rawArgStrings (c : command) : List String :=
  c.rawArgs.map argText

/-- The arguments a line parses to (`none` when the line is blank or
does not parse to a command). -/
def parsedArgs (line : String) : Option (List String) :=
  match parse "s" 1 line with
  | .ok (some c) => some (rawArgStrings c)
  | _ => none

/-- `strings.ReplaceAll(arg, "'", "''")` at the character level. -/
def escChars : List Char → List Char
  | [] => []
  | c :: t => if c = '\'' then '\'' :: '\'' :: escChars t else c :: escChars t

/-- `strings.ContainsAny(arg, "'"+argSepChars)`. -/
def needsQuote (arg : String) : Bool :=
  arg.data.any (fun c => c = '\'' ∨ c ∈ argSepChars)

/-- `quoteArgs` quoting of one argument (name.go lines 705-712). -/
def quoteOne (arg : String) : String :=
  if needsQuote arg then "'" ++ ⟨escChars arg.data⟩ ++ "'" else arg

/-- `quoteArgs` (name.go line 699): Go's builder loop writes `" "`
before every argument but the first. -/
def quoteArgs : List String → String
  | [] => ""
  | [a] => quoteOne a
  | a :: rest => quoteOne a ++ " " ++ quoteArgs rest

/-! ## State, variable expansion -/

/-- Modelled from the spec: the per-script `State` (its declaration
lives in the package's state file, which is not among the provided
sources).  Only the parts the engine core in name.go reads or writes
are modelled: the log buffer, the last captured stdout/stderr, the
background-task registry, the retry bookkeeping, the variable
bindings used for expansion, and the cancellation/deadline context.
The context is a virtual clock `now` plus an optional absolute
`ctxDeadline`; backoff sleeps advance the clock.  Background entries
keep only the originating command: no claim resolves a completion
handle, and a stored handle (a function out of `State`) cannot occur
inside `State` itself. -/
structure State where
  vars : List (String × String) := []
  log : List String := []
  stdout : String := ""
  stderr : String := ""
  background : List command := []
  RetryCount : Nat := 0
  retriesRequested : Bool := false
  now : Nat := 0
  ctxDeadline : Option Nat := none
deriving Repr, DecidableEq

namespace State

/-- `s.ctx.Err()`: the context error, `deadlineExceeded` once the
deadline has been reached. -/
def ctxErr (s : State) : Option Err :=
  match s.ctxDeadline with
  | some d => if d ≤ s.now then some .deadlineExceeded else none
  | none => none

/-- `s.Logf`: append to the section log buffer. -/
def Logf (s : State) (text : String) : State :=
  { s with log := s.log ++ [text] }

/-- `s.FlushLog`: move the buffered section log to the output writer. -/
def FlushLog (s : State) (out : List String) : State × List String :=
  ({ s with log := [] }, out ++ s.log)

end State

/-- Characters a variable name may consist of in the modelled expander. -/
def isVarChar (c : Char) : Bool :=
  c.isAlphanum ∨ c = '_'

/-- Modelled from the spec: the regexp-safe substitution mode quotes
regular-expression metacharacters in the substituted value
(`regexp.QuoteMeta`). -/
def quoteMetaChars : List Char → List Char
  | [] => []
  | c :: t =>
    if c.isAlphanum ∨ c = '_' then c :: quoteMetaChars t
    else '\\' :: c :: quoteMetaChars t

/-- Modelled from the spec: variable expansion over the characters of
an unquoted fragment (`State.ExpandEnv` lives in the package's state
file, which is not among the provided sources).  A `$` followed by a
name is replaced by the binding (missing variables expand to empty);
`$:` and `$/` are the synthetic path-list-separator and
path-separator bindings; in regexp mode the value is
metacharacter-quoted. -/
def expandGo (vars : List (String × String)) (isRegexp : Bool) :
    Nat → List Char → List Char
  | 0, _ => []
  | _ + 1, [] => []
  | fuel + 1, '$' :: ':' :: rest2 => ':' :: expandGo vars isRegexp fuel rest2
  | fuel + 1, '$' :: '/' :: rest2 => '/' :: expandGo vars isRegexp fuel rest2
  | fuel + 1, '$' :: rest =>
    let nameCs := rest.takeWhile isVarChar
    if nameCs = [] then '$' :: expandGo vars isRegexp fuel rest
    else
      let v := ((vars.lookup (⟨nameCs⟩ : String)).getD "").data
      (if isRegexp then quoteMetaChars v else v)
        ++ expandGo vars isRegexp fuel (rest.drop nameCs.length)
  | fuel + 1, c :: rest => c :: expandGo vars isRegexp fuel rest

/-- Modelled from the spec: one pass over the fragment characters.
`expandGo` recurses on a character budget, initialised to the length
of the input; every step consumes at least one character, so the
budget never runs out. -/
def expandChars (vars : List (String × String)) (isRegexp : Bool) (l : List Char) :
    List Char :=
  expandGo vars isRegexp l.length l

/-- Modelled from the spec: `s.ExpandEnv(str, inRegexp)`. -/
def State.ExpandEnv (s : State) (str : String) (inRegexp : Bool) : String :=
  ⟨expandChars s.vars inRegexp str.data⟩

/-- `expandArgs` (name.go line 672): expand the shell variables in
rawArgs and join the fragments; quoted fragments are copied verbatim. -/
def expandArgs (s : State) (rawArgs : List (List argFragment)) (regexpArgs : List Nat) :
    List String :=
  (rawArgs.enum.map fun (i, frags) =>
    let inRegexp := regexpArgs.contains i
    String.join (frags.map fun frag =>
      if frag.quoted then frag.s else s.ExpandEnv frag.s inRegexp))

/-! ## Backoff -/

/-- `const defaultRetryInterval = 100 * time.Millisecond` (durations in ms). -/
def defaultRetryInterval : Nat := 100

/-- `const defaultMaxRetryInterval = 500 * time.Millisecond`. -/
def defaultMaxRetryInterval : Nat := 500

/-- `type exponentialBackoff struct` (name.go line 1069). -/
structure exponentialBackoff where
  max : Nat
  interval : Nat
deriving Repr, DecidableEq

/-- `(*exponentialBackoff).get` (name.go line 1074): returns the
current interval and doubles it, capped at `max`. -/
def exponentialBackoff.get (eb : exponentialBackoff) : Nat × exponentialBackoff :=
  (eb.interval, { eb with interval := min (eb.interval * 2) eb.max })

/-- The wait before the `(n+1)`-st retry: the result of the
`(n+1)`-st call to `get`. -/
def exponentialBackoff.nthWait (eb : exponentialBackoff) : Nat → Nat
  | 0 => eb.get.1
  | n + 1 => eb.get.2.nthWait n

/-! ## Commands, conditions, engine -/

/-- `type WaitFunc func(*State) (stdout, stderr string, err error)`. -/
abbrev WaitFunc := State → State × String × String × Option Err

/-- `type CmdUsage struct` (name.go line 170).  `flags` abstracts the
`Flags func(*pflag.FlagSet)` field to its presence. -/
structure CmdUsage where
  summary : String := ""
  argsUsage : String := ""
  flags : Bool := false
  detail : List String := []
  async : Bool := false
  regexpArgs : Option (List String → List Nat) := none

/-- `type Cmd interface` (name.go line 147): `Run` may inspect and
modify the `State`. -/
structure Cmd where
  run : State → List String → State × Option WaitFunc × Option Err
  usage : CmdUsage

/-- `type CondUsage struct` (name.go line 212).  Go names the field
`Prefix`; it means the condition requires a colon-separated suffix. -/
structure CondUsage where
  summary : String := ""
  requiresSuffix : Bool := false

/-- `type Cond interface` (name.go line 198). -/
structure Cond where
  eval : State → String → State × Bool × Option Err
  usage : CondUsage

/-- `type Engine struct` (name.go line 115); the name-keyed maps are
association lists. -/
structure Engine where
  Cmds : List (String × Cmd) := []
  Conds : List (String × Cond) := []
  Quiet : Bool := false
  RetryInterval : Nat := 0
  MaxRetryInterval : Nat := 0

/-- `strings.Cut(tag, ":")`: (before, after, found). -/
def cutColon (tag : String) : String × String × Bool :=
  let pre := tag.data.takeWhile (· ≠ ':')
  if pre.length = tag.data.length then (tag, "", false)
  else (⟨pre⟩, ⟨tag.data.drop (pre.length + 1)⟩, true)

/-- `Engine.conditionsActive` (name.go line 717): evaluate the guards
in order; a lookup or evaluation failure is an error, the first
polarity mismatch short-circuits to an errorless `false`. -/
def Engine.conditionsActive (e : Engine) (s : State) :
    List condition → State × Bool × Option Err
  | [] => (s, true, none)
  | cond :: rest =>
    let (pre, suffix, found) := cutColon cond.tag
    let implRes : Except Err Cond :=
      if found then
        match e.Conds.lookup pre with
        | none => .error (.msg ("unknown condition prefix " ++ pre))
        | some impl =>
          if ¬impl.usage.requiresSuffix then
            .error (.msg ("condition " ++ pre ++ " cannot be used with a suffix"))
          else .ok impl
      else
        match e.Conds.lookup cond.tag with
        | none => .error (.msg ("unknown condition " ++ cond.tag))
        | some impl =>
          if impl.usage.requiresSuffix then
            .error (.msg ("condition " ++ cond.tag ++ " requires a suffix"))
          else .ok impl
    match implRes with
    | .error er => (s, false, some er)
    | .ok impl =>
      let (s, active, err) := impl.eval s suffix
      match err with
      | some er => (s, false, some (.wrap ("evaluating condition " ++ cond.tag ++ ": ") er))
      | none =>
        if active ≠ cond.want then (s, false, none)
        else e.conditionsActive s rest

/-- Modelled from the spec: `cmdError` builds a `*CommandError`
wrapping the underlying error with the command's location, name and
arguments (its declaration is in the package's other files). -/
def cmdError (cmd : command) (err : Err) : Err :=
  .commandError cmd.file cmd.line cmd.name cmd.args err

/-- `checkStatus` (name.go line 834): reconcile a dispatch outcome
with the command's expected status. -/
def checkStatus (cmd : command) (err : Option Err) : Option Err :=
  match err with
  | none =>
    if cmd.want = failure ∨ cmd.want = failureRetryOnSuccess then
      some (cmdError cmd .unexpectedSuccess)
    else none
  | some e =>
    if e.isStop then some (cmdError cmd e)
    else if e.isWait then some (cmdError cmd e)
    else if cmd.want = success ∨ cmd.want = successRetryOnFailure then
      some (cmdError cmd e)
    else if (cmd.want = failure ∨ cmd.want = failureRetryOnSuccess) ∧ e.isCancel then
      some (cmdError cmd e)
    else none

/-- Modelled from the spec: pflag flag extraction (the vendored pflag
library is not among the provided sources).  Flags are parsed from
the arguments regardless of whether the capability declares flags;
with no `-`-prefixed argument, parsing succeeds and leaves the
arguments unchanged (the only case the engine logic exercised by the
claims depends on). -/
def pflagParse (args : List String) : Option (List String) :=
  if args.any (fun a => hasPrefix a "-" ∧ a ≠ "-" ∧ a ≠ "--") then none
  else some args

/-- A plain rendering of an error, standing in for Go `%v`. -/
def errText : Err → String
  | .msg t => t
  | .wrap t i => t ++ errText i
  | .parseWrap i => "parse error: " ++ errText i
  | .atLine f l i => f ++ ":" ++ toString l ++ ": " ++ errText i
  | .commandError f l nm _ i => f ++ ":" ++ toString l ++ ": " ++ nm ++ ": " ++ errText i
  | .stopError t => t
  | .waitError i => "wait: " ++ errText i
  | .canceled => "context canceled"
  | .deadlineExceeded => "context deadline exceeded"
  | .unexpectedSuccess => "unexpected command success"

/-- `Engine.runCommand` (name.go line 751).  The returned `command`
carries the mutations Go performs through the `*command` pointer
(`cmd.args = fs.Args()`). -/
def Engine.runCommand (e : Engine) (s : State) (cmd : command) (impl : Option Cmd) :
    State × command × Option Err :=
  match impl with
  | none => (s, cmd, some (cmdError cmd (.msg "unknown command")))
  | some impl =>
    let usage := impl.usage
    if cmd.background ∧ ¬usage.async then
      (s, cmd, some (cmdError cmd (.msg "command cannot be run in background")))
    else
      match pflagParse cmd.origArgs with
      | none =>
        -- fs.Parse failed: with declared flags this is a command error;
        -- without declared flags the engine ignores it and keeps cmd.args.
        if usage.flags then (s, cmd, some (cmdError cmd (.msg "flag parse error")))
        else runBody e s cmd impl
      | some newArgs => runBody e s { cmd with args := newArgs } impl
where
  runBody (_e : Engine) (s : State) (cmd : command) (impl : Cmd) :
      State × command × Option Err :=
    let (s, wait, runErr) := impl.run s cmd.args
    match wait with
    | none =>
      if impl.usage.async ∧ runErr = none then
        (s, cmd, some (cmdError cmd (.msg "internal error: async command returned a nil WaitFunc")))
      else (s, cmd, checkStatus cmd runErr)
    | some w =>
      if runErr ≠ none then
        (s, cmd, some (cmdError cmd (.msg "internal error: command returned both an error and a WaitFunc")))
      else if cmd.background then
        ({ s with background := s.background ++ [cmd], stdout := "", stderr := "" }, cmd, none)
      else
        let (s, stdout, stderr, waitErr) := w s
        let s := { s with stdout := stdout, stderr := stderr }
        let s := if stdout ≠ "" then s.Logf ("[stdout]\n" ++ stdout) else s
        let s := if stderr ≠ "" then s.Logf ("[stderr]\n" ++ stderr) else s
        match checkStatus cmd waitErr with
        | some cmdErr => (s, cmd, some cmdErr)
        | none =>
          match waitErr with
          | some we => (s.Logf ("[" ++ errText we ++ "]\n"), cmd, none)
          | none => (s, cmd, none)

/-! ## Execute -/

/-- `lineErr` (name.go line 283): prefix the location unless the
error already carries one as a `*CommandError`. -/
def lineErr (file : String) (lineno : Nat) (e : Err) : Err :=
  if e.isCmdErr then e else .atLine file lineno e

/-- The `endSection` closure (name.go lines 255-280): flush the
current section's buffered log to the output.  The elapsed-time
annotation ` (%.3fs)\n` is rendered from the virtual clock. -/
def endSection (quiet : Bool) (ok : Bool) (sectionStart : Option Nat) (s : State)
    (out : List String) : State × List String :=
  match sectionStart with
  | none => if s.log ≠ [] then s.FlushLog out else (s, out)
  | some t0 =>
    if s.log = [] then (s, out ++ ["\n"])
    else
      let out := out ++ [" (" ++ toString (s.now - t0) ++ ")\n"]
      if ¬ok ∨ ¬quiet then s.FlushLog out else ({ s with log := [] }, out)

/-- The result of a modelled `Execute` run: the final state, the text
written to the output writer, and the returned error; `fuelOut` when
the retry loop's fuel ran out (the Go loop would still be retrying). -/
inductive Outcome where
  | done (s : State) (out : List String) (err : Option Err)
  | fuelOut (s : State) (out : List String)
deriving Repr, DecidableEq

/-- The error an `Outcome` reports: `some e?` for a finished run. -/
def Outcome.errOf : Outcome → Option (Option Err)
  | .done _ _ e => some e
  | .fuelOut _ _ => none

/-- The output text of an `Outcome`. -/
def Outcome.outOf : Outcome → List String
  | .done _ o _ => o
  | .fuelOut _ o => o

/-- All returns of `Execute` run the deferred `endSection(false)`
(name.go lines 291-295) that flushes any pending section log. -/
def finishRun (quiet : Bool) (sectionStart : Option Nat) (s : State) (out : List String)
    (err : Option Err) : Outcome :=
  let (s, out) := endSection quiet false sectionStart s out
  .done s out err

/-- `"(command %q failed, retrying in %s...)\n"` (name.go line 401). -/
def retryNote (line : String) (dur : Nat) : String :=
  "(command \"" ++ line ++ "\" failed, retrying in " ++ toString dur ++ "...)\n"

/-- `"(command %q succeeded after %d retries in %.3fs)\n"` (name.go line 417). -/
def retrySuccessNote (line : String) (count : Nat) (elapsed : Nat) : String :=
  "(command \"" ++ line ++ "\" succeeded after " ++ toString count ++ " retries in "
    ++ toString elapsed ++ ")\n"

/-- The replay of the recorded section (name.go lines 409-414): every
recorded command is re-dispatched through `runCommand` directly —
conditions are not re-evaluated and arguments are not re-expanded;
the loop breaks at the first error.  The returned list carries the
pointer mutations `runCommand` makes to the commands. -/
def replaySection (e : Engine) : State → List command → State × List command × Option Err
  | s, [] => (s, [], none)
  | s, cmd :: rest =>
    let impl := e.Cmds.lookup cmd.name
    let (s, cmd, err) := e.runCommand s cmd impl
    match err with
    | some er => (s, cmd :: rest, some er)
    | none =>
      let (s, rest2, err2) := replaySection e s rest
      (s, cmd :: rest2, err2)

/-- What the retry loop of `Execute` (name.go lines 398-416) ends
with: a context error, success, or fuel exhaustion. -/
inductive RetryRes where
  | ctxDone (s : State) (out : List String) (er : Err)
  | ok (s : State) (out : List String) (cmds : List command)
  | fuel (s : State) (out : List String)

/-- The retry loop of `Execute` (name.go lines 398-416), entered with
a failed command that requested retries: wait for the backoff
interval (watching the cancellation context), then replay the whole
recorded section, until a replay succeeds. -/
def retryLoop (e : Engine) (lineText : String) :
    State → List String → List command → exponentialBackoff → Nat → RetryRes
  | s, out, _, _, 0 => .fuel s out
  | s, out, sectionCmds, backoff, fuel + 1 =>
    let (dur, backoff) := backoff.get
    let out := out ++ [retryNote lineText dur]
    -- select { case <-s.Context().Done(): ... case <-time.After(retryDuration): }
    let cancelled : Bool :=
      match s.ctxDeadline with
      | some d => decide (d ≤ s.now + dur)
      | none => false
    if cancelled then
      let s := { s with now := max s.now (s.ctxDeadline.getD s.now), RetryCount := 0 }
      .ctxDone s out .deadlineExceeded
    else
      let s := { s with now := s.now + dur, RetryCount := s.RetryCount + 1 }
      let (s, sectionCmds, err) := replaySection e s sectionCmds
      let (s, out) := s.FlushLog out
      match err with
      | some _ => retryLoop e lineText s out sectionCmds backoff fuel
      | none => .ok s out sectionCmds

/-- One line's worth of `Execute`'s loop body plus the recursion over
the remaining lines (name.go lines 297-432).  `lineno` counts the
lines already read, `sectionStart` is the running section's start
time (Go's zero `time.Time` is `none`) and `sectionCmds` the commands
recorded for the section. -/
def execLoop (e : Engine) (ri mri : Nat) (file : String) (s : State) (out : List String)
    (lineno : Nat) (sectionStart : Option Nat) (sectionCmds : List command) :
    List String → Nat → Outcome
  | lines, fuel =>
    match s.ctxErr with
    | some er => finishRun e.Quiet sectionStart s out (some (lineErr file lineno er))
    | none =>
      match lines with
      | [] =>
        let (s, out) := endSection e.Quiet true sectionStart s out
        finishRun e.Quiet none s out none
      | line :: rest =>
        let lineno := lineno + 1
        if hasPrefix line "#" then
          -- A section boundary: flush the previous section as successful,
          -- then log the header without a newline and start the timer.
          let (s, out) := endSection e.Quiet true sectionStart s out
          let out := out ++ [line]
          execLoop e ri mri file s out lineno (some s.now) [] rest fuel
        else
          match parse file lineno line with
          | .error m =>
            -- parse returned (nil, err): the nil command is appended to
            -- sectionCmds but the function returns before it can be replayed.
            let s := s.Logf ("> " ++ line ++ "\n")
            finishRun e.Quiet sectionStart s out
              (some (lineErr file lineno (.parseWrap (.msg m))))
          | .ok none => execLoop e ri mri file s out lineno sectionStart sectionCmds rest fuel
          | .ok (some cmd) =>
            let s := s.Logf ("> " ++ line ++ "\n")
            let (s, active, condErr) := e.conditionsActive s cmd.conds
            match condErr with
            | some er => finishRun e.Quiet sectionStart s out (some (lineErr file lineno er))
            | none =>
              if ¬active then
                let s := s.Logf "[condition not met]\n"
                execLoop e ri mri file s out lineno sectionStart (sectionCmds ++ [cmd]) rest fuel
              else
                let impl := e.Cmds.lookup cmd.name
                let regexpArgs :=
                  match impl with
                  | some im =>
                    match im.usage.regexpArgs with
                    | some f => f (cmd.rawArgs.map argText)
                    | none => []
                  | none => []
                let expanded := expandArgs s cmd.rawArgs regexpArgs
                let cmd := { cmd with origArgs := expanded, args := expanded }
                let s := { s with RetryCount := 0 }
                let s := { s with retriesRequested :=
                  cmd.want == successRetryOnFailure || cmd.want == failureRetryOnSuccess }
                let (s, cmd, err) := e.runCommand s cmd impl
                let sectionCmds := sectionCmds ++ [cmd]
                match err with
                | none => execLoop e ri mri file s out lineno sectionStart sectionCmds rest fuel
                | some er =>
                  if s.retriesRequested then
                    let retryStart := sectionStart
                    -- Clear the section start, append the newline the section
                    -- header omitted, and flush the log before retrying.
                    let out := out ++ ["\n"]
                    let (s, out) := s.FlushLog out
                    let backoff : exponentialBackoff := { max := mri, interval := ri }
                    match retryLoop e line s out sectionCmds backoff fuel with
                    | .ctxDone s out er2 =>
                      finishRun e.Quiet none s out (some (lineErr file lineno er2))
                    | .fuel s out => .fuelOut s out
                    | .ok s out sectionCmds =>
                      let out := out ++
                        [retrySuccessNote line s.RetryCount (s.now - (retryStart.getD 0))]
                      let s := { s with RetryCount := 0 }
                      execLoop e ri mri file s out lineno none sectionCmds rest fuel
                  else if er.isStop then
                    -- The stop command halts the script cleanly: flush the
                    -- section as successful, log the stop message (the deferred
                    -- endSection flushes it outside the section), return nil.
                    let (s, out) := endSection e.Quiet true sectionStart s out
                    let s := s.Logf (er.stopMsg ++ "\n")
                    finishRun e.Quiet none s out none
                  else
                    finishRun e.Quiet sectionStart s out (some (lineErr file lineno er))

/-- `Engine.Execute` (name.go line 234) on a script already split
into lines.  `fuel` bounds only the retry loop's iterations. -/
def Engine.Execute (e : Engine) (s : State) (file : String) (lines : List String)
    (fuel : Nat) : Outcome :=
  let ri := if e.RetryInterval = 0 then defaultRetryInterval else e.RetryInterval
  let mri := if e.MaxRetryInterval = 0 then defaultMaxRetryInterval else e.MaxRetryInterval
  execLoop e ri mri file s [] 0 none [] lines fuel

/-! ## Concrete capabilities used as test doubles by the claims

The claims quantify over host-supplied capabilities ("given a command
capability that always succeeds", "a condition capability bound to tag
always-false returning (false, nil)"); these instances realise them. -/

/-- A synchronous command that echoes its name and arguments on
stdout and succeeds. -/
def echoCmd (nm : String) : Cmd where
  run s args :=
    (s, some (fun st => (st, nm ++ "(" ++ String.intercalate "," args ++ ")\n", "", none)),
      none)
  usage := {}

/-- A command capability that always succeeds with no output. -/
def okCmd : Cmd where
  run s _ := (s, none, none)
  usage := {}

/-- Modelled from the spec: the dedicated stop command, whose only
effect is returning the distinguished `stopError` signal (the Stop
command's declaration is in the package's command file, which is not
among the provided sources). -/
def stopCmd : Cmd where
  run s _ := (s, none, some (.stopError "stop"))
  usage := {}

/-- A command that fails on its first invocation, records that it ran
in the State's variables, and succeeds afterwards. -/
def flakyCmd : Cmd where
  run s _ :=
    if (s.vars.lookup "flaky-ran").isSome then (s, none, none)
    else ({ s with vars := s.vars ++ [("flaky-ran", "1")] }, none, some (.msg "flaky failed"))
  usage := {}

/-- A condition capability returning `(true, nil)`. -/
def alwaysTrueCond : Cond where
  eval s _ := (s, true, none)
  usage := {}

/-- A condition capability returning `(false, nil)`. -/
def alwaysFalseCond : Cond where
  eval s _ := (s, false, none)
  usage := {}

/-- A condition capability returning `(false, nil)` that records each
evaluation in the section log (a `Cond.Eval` receives the `*State`
and may write to it). -/
def loggingFalseCond : Cond where
  eval s _ := (s.Logf "eval(always-false)\n", false, none)
  usage := {}

/-- The engine for the stop-semantics scenarios. -/
def stopEngine : Engine where
  Cmds := [("cmd1", echoCmd "cmd1"), ("stop", stopCmd), ("cmd2", echoCmd "cmd2")]

/-- The engine for the unexpected-success scenario. -/
def okEngine : Engine where
  Cmds := [("that-command", okCmd)]

/-- The engine for the condition-gating scenarios. -/
def condEngine : Engine where
  Cmds := [("cmd", echoCmd "cmd")]
  Conds := [("always-true", alwaysTrueCond), ("always-false", alwaysFalseCond)]

/-- The engine for the section-replay scenario. -/
def replayEngine : Engine where
  Cmds := [("skipcmd", echoCmd "skipcmd"), ("flaky", flakyCmd)]
  Conds := [("always-false", loggingFalseCond)]

/-! ## Round-trip machinery

How `parse` scans the line `quoteArgs` produces: each argument becomes
one token, either bare or single-quoted with doubled embedded quotes.
`quotedFrags` predicts the fragments the scanner emits for a quoted
region, `tokFrags` the whole fragment list of one token (a closed
quote leaves an open empty unquoted chunk behind, so a quoted token
always ends in an empty unquoted fragment). -/

/-- The fragments `parseLoop` accumulates scanning an (escaped) quoted
region whose current chunk is `acc`. -/
def quotedFrags (acc : List Char) : List Char → List argFragment
  | [] => [⟨⟨acc⟩, true⟩]
  | c :: t =>
    if c = '\'' then ⟨⟨acc⟩, true⟩ :: quotedFrags ['\''] t
    else quotedFrags (acc ++ [c]) t

/-- A token as written by `quoteArgs`: the argument text and whether
it was quoted. -/
def renderTok (tok : String × Bool) : String :=
  if tok.2 then "'" ++ (⟨escChars tok.1.data⟩ : String) ++ "'" else tok.1

/-- The raw-argument fragment list one token parses to. -/
def tokFrags (tok : String × Bool) : List argFragment :=
  if tok.2 then quotedFrags [] tok.1.data ++ [⟨"", false⟩] else [⟨tok.1, false⟩]

/-- The characters of a space-separated token list. -/
def toksLine : List (String × Bool) → List Char
  | [] => []
  | [t] => (renderTok t).data
  | t :: ts => (renderTok t).data ++ ' ' :: toksLine ts

/-- A bare token must be non-empty and free of quotes and separators. -/
def bareOk (a : String) : Prop :=
  a ≠ "" ∧ ∀ c ∈ a.data, ¬(c = '\'' ∨ c ∈ argSepChars)

/-- Validity of one rendered token. -/
def tokOk (tok : String × Bool) : Prop :=
  if tok.2 then True else bareOk tok.1

theorem mk_append (a b : List Char) : (⟨a⟩ : String) ++ (⟨b⟩ : String) = ⟨a ++ b⟩ := rfl

/-- The nil equation of `parseLoop`. -/
theorem parseLoop_nil (cmd : command) (rawArg : List argFragment) (chunk : Option (List Char))
    (quoted : Bool) :
    parseLoop cmd rawArg chunk quoted [] =
      if quoted then .error "unterminated quoted argument"
      else
        match flushArg cmd (pushChunk rawArg chunk) with
        | .error e => .error e
        | .ok cmd2 => parseFinish cmd2 := rfl

/-- The two cons equations of `parseLoop` as one uniform step. -/
theorem parseLoop_cons (cmd : command) (rawArg : List argFragment) (chunk : Option (List Char))
    (quoted : Bool) (c : Char) (l : List Char) :
    parseLoop cmd rawArg chunk quoted (c :: l) =
      if ¬quoted ∧ c ∈ argSepChars then
        match flushArg cmd (pushChunk rawArg chunk) with
        | .error e => .error e
        | .ok cmd2 =>
          if c = '#' then parseFinish cmd2
          else parseLoop cmd2 [] none false l
      else if c = '\'' then
        if ¬quoted then parseLoop cmd (pushChunk rawArg chunk) (some []) true l
        else if l.head? = some '\'' then
          parseLoop cmd (rawArg ++ [⟨⟨chunk.getD []⟩, true⟩]) (some ['\'']) true l.tail
        else
          parseLoop cmd (rawArg ++ [⟨⟨chunk.getD []⟩, true⟩]) (some []) false l
      else
        parseLoop cmd rawArg (some ((chunk.getD []) ++ [c])) quoted l := by
  cases l with
  | nil => rfl
  | cons c2 rest2 =>
    rw [parseLoop]
    simp only [List.head?_cons, List.tail_cons, Option.some.injEq]

/-- Scanning bare characters extends the open unquoted chunk. -/
theorem parseLoop_bare_chars (t : List Char) :
    ∀ (acc : List Char) (cmd : command) (rawArg : List argFragment) (rest : List Char),
      (∀ c ∈ t, ¬(c = '\'' ∨ c ∈ argSepChars)) →
      parseLoop cmd rawArg (some acc) false (t ++ rest) =
        parseLoop cmd rawArg (some (acc ++ t)) false rest := by
  induction t with
  | nil => intro acc cmd rawArg rest _; simp
  | cons c t ih =>
    intro acc cmd rawArg rest h
    have hc := h c (List.mem_cons_self ..)
    push_neg at hc
    rw [List.cons_append, parseLoop_cons]
    simp only [hc.1, hc.2, not_false_eq_true, true_and, if_false, ite_false,
      if_neg hc.2, Option.getD_some]
    rw [ih (acc ++ [c]) cmd rawArg rest (fun c2 h2 => h c2 (List.mem_cons_of_mem _ h2))]
    simp [List.append_assoc]

/-- A bare character opens a chunk when none is open. -/
theorem parseLoop_open_chunk (c : Char) (cmd : command) (rawArg : List argFragment)
    (rest : List Char) (h : ¬(c = '\'' ∨ c ∈ argSepChars)) :
    parseLoop cmd rawArg none false (c :: rest) =
      parseLoop cmd rawArg (some [c]) false rest := by
  push_neg at h
  rw [parseLoop_cons]
  simp [h.1, h.2, pushChunk]

/-- Scanning the escaped text of a quoted region up to its closing
quote: the region contributes `quotedFrags acc t` and leaves an open
empty unquoted chunk, provided the closing quote is not itself
followed by another quote. -/
theorem parseLoop_quoted_chars (t : List Char) :
    ∀ (acc : List Char) (cmd : command) (rawArg : List argFragment) (rest : List Char),
      rest.head? ≠ some '\'' →
      parseLoop cmd rawArg (some acc) true (escChars t ++ '\'' :: rest) =
        parseLoop cmd (rawArg ++ quotedFrags acc t) (some []) false rest := by
  induction t with
  | nil =>
    intro acc cmd rawArg rest hrest
    rw [escChars, List.nil_append, parseLoop_cons]
    match rest, hrest with
    | [], _ => simp [quotedFrags]
    | c2 :: rest2, hrest =>
      have : c2 ≠ '\'' := by
        intro h; exact hrest (by simp [h])
      simp [quotedFrags, this]
  | cons c t ih =>
    intro acc cmd rawArg rest hrest
    by_cases hc : c = '\''
    · subst hc
      simp only [escChars, reduceIte, List.cons_append]
      rw [parseLoop_cons]
      simp only [not_true, false_and, if_false, List.head?_cons, Option.getD_some,
        List.tail_cons, reduceIte, ite_false, ite_true]
      rw [ih _ _ _ _ hrest]
      simp [quotedFrags, List.append_assoc]
    · simp only [escChars, if_neg hc, List.cons_append]
      rw [parseLoop_cons]
      simp only [not_true, false_and, if_false, if_neg hc, Option.getD_some, ite_false]
      rw [ih _ _ _ _ hrest]
      simp [quotedFrags, hc]

theorem quotedFrags_ne_nil (t : List Char) (acc : List Char) : quotedFrags acc t ≠ [] := by
  induction t generalizing acc with
  | nil => simp [quotedFrags]
  | cons c t ih =>
    rw [quotedFrags]
    by_cases hc : c = '\''
    · simp [if_pos hc]
    · simpa [if_neg hc] using ih (acc ++ [c])

theorem argText_append (xs ys : List argFragment) :
    argText (xs ++ ys) = argText xs ++ argText ys := by
  apply String.ext
  simp [argText, String.data_join, String.data_append]

theorem argText_cons (f : argFragment) (l : List argFragment) :
    argText (f :: l) = f.s ++ argText l := by
  apply String.ext
  simp [argText, String.data_join, String.data_append]

theorem argText_quotedFrags (t : List Char) :
    ∀ acc, argText (quotedFrags acc t) = ⟨acc ++ t⟩ := by
  induction t with
  | nil =>
    intro acc
    apply String.ext
    simp [quotedFrags, argText, String.data_join]
  | cons c t ih =>
    intro acc
    rw [quotedFrags]
    by_cases hc : c = '\''
    · subst hc
      rw [if_pos rfl, argText_cons, ih ['\''], mk_append]
      simp
    · rw [if_neg hc, ih (acc ++ [c])]
      simp

theorem argText_tokFrags (tok : String × Bool) : argText (tokFrags tok) = tok.1 := by
  rw [tokFrags]
  split
  · rw [argText_append, argText_quotedFrags]
    apply String.ext
    simp [argText, String.data_join]
  · apply String.ext
    simp [argText, String.data_join]

/-- With a command name already set, `flushArg` appends the raw
argument. -/
theorem flushArg_named (cmd : command) (rawArg : List argFragment) (h : cmd.name ≠ "")
    (h2 : rawArg ≠ []) :
    flushArg cmd rawArg = .ok { cmd with rawArgs := cmd.rawArgs ++ [rawArg] } := by
  rw [flushArg, if_neg h2]
  cases hsole : soleUnquoted rawArg <;> simp [hsole, if_neg h, h]

theorem toksLine_one (t : String × Bool) : toksLine [t] = (renderTok t).data := rfl

theorem toksLine_cons2 (t t2 : String × Bool) (ts : List (String × Bool)) :
    toksLine (t :: t2 :: ts) = (renderTok t).data ++ ' ' :: toksLine (t2 :: ts) := rfl

/-- One rendered token followed by a space: the token is flushed as
one raw argument and scanning resumes cleanly. -/
theorem parseLoop_token_sep (tok : String × Bool) (cmd : command) (rest : List Char)
    (hname : cmd.name ≠ "") (htok : tokOk tok) :
    parseLoop cmd [] none false ((renderTok tok).data ++ ' ' :: rest) =
      parseLoop { cmd with rawArgs := cmd.rawArgs ++ [tokFrags tok] } [] none false rest := by
  match tok with
  | (a, true) =>
    have hdata : (renderTok (a, true)).data = '\'' :: (escChars a.data ++ '\'' :: []) := by
      simp [renderTok, String.data_append]
    rw [hdata]
    simp only [List.cons_append, List.append_assoc, List.nil_append]
    rw [parseLoop_cons]
    simp only [show ¬(('\'' : Char) ∈ argSepChars) from by decide, and_false, if_false,
      not_false_eq_true, true_and, false_and, reduceIte, pushChunk]
    rw [parseLoop_quoted_chars a.data [] cmd [] (' ' :: rest) (by simp)]
    rw [parseLoop_cons]
    have hsep : (' ' : Char) ∈ argSepChars := by decide
    simp only [hsep, not_false_eq_true, true_and, if_true, Option.getD_some, reduceIte,
      pushChunk]
    rw [flushArg_named cmd _ hname (by
      intro hh
      exact quotedFrags_ne_nil a.data [] (List.append_eq_nil.mp hh).1)]
    simp [tokFrags]
  | (a, false) =>
    rcases htok with ⟨hne, hchars⟩
    have hdata : (renderTok (a, false)).data = a.data := rfl
    rw [hdata]
    match ha : a.data with
    | [] => exact absurd (by cases a; simp_all) hne
    | c :: cs =>
      have hc := hchars c (by rw [ha]; exact List.mem_cons_self ..)
      rw [List.cons_append, parseLoop_open_chunk c cmd [] _ hc]
      rw [parseLoop_bare_chars cs [c] cmd [] (' ' :: rest)
        (fun x hx => hchars x (by rw [ha]; exact List.mem_cons_of_mem _ hx))]
      rw [parseLoop_cons]
      have hsep : (' ' : Char) ∈ argSepChars := by decide
      simp only [hsep, not_false_eq_true, true_and, if_true, Option.getD_some, reduceIte,
        pushChunk]
      have hmk : (⟨[c] ++ cs⟩ : String) = a := by rw [List.singleton_append, ← ha]
      rw [hmk, flushArg_named cmd _ hname (by simp)]
      simp [tokFrags]

/-- One rendered token at the end of the line: the token is flushed
and the line ends. -/
theorem parseLoop_token_eol (tok : String × Bool) (cmd : command)
    (hname : cmd.name ≠ "") (htok : tokOk tok) :
    parseLoop cmd [] none false (renderTok tok).data =
      parseFinish { cmd with rawArgs := cmd.rawArgs ++ [tokFrags tok] } := by
  match tok with
  | (a, true) =>
    have hdata : (renderTok (a, true)).data = '\'' :: (escChars a.data ++ '\'' :: []) := by
      simp [renderTok, String.data_append]
    rw [hdata, parseLoop_cons]
    simp only [show ¬(('\'' : Char) ∈ argSepChars) from by decide, and_false, if_false,
      not_false_eq_true, true_and, false_and, reduceIte, pushChunk]
    rw [parseLoop_quoted_chars a.data [] cmd [] [] (by simp)]
    rw [parseLoop_nil]
    simp only [Option.getD_some, reduceIte, pushChunk]
    rw [flushArg_named cmd _ hname (by
      intro hh
      exact quotedFrags_ne_nil a.data [] (List.append_eq_nil.mp hh).1)]
    simp [tokFrags]
  | (a, false) =>
    rcases htok with ⟨hne, hchars⟩
    have hdata : (renderTok (a, false)).data = a.data := rfl
    rw [hdata]
    match ha : a.data with
    | [] => exact absurd (by cases a; simp_all) hne
    | c :: cs =>
      have hc := hchars c (by rw [ha]; exact List.mem_cons_self ..)
      have : (c :: cs : List Char) = (c :: cs) ++ [] := by simp
      rw [this, List.cons_append, parseLoop_open_chunk c cmd [] _ hc]
      rw [parseLoop_bare_chars cs [c] cmd [] []
        (fun x hx => hchars x (by rw [ha]; exact List.mem_cons_of_mem _ hx))]
      rw [parseLoop_nil]
      simp only [Option.getD_some, reduceIte, pushChunk]
      have hmk : (⟨[c] ++ cs⟩ : String) = a := by rw [List.singleton_append, ← ha]
      rw [hmk, flushArg_named cmd _ hname (by simp)]
      simp [tokFrags]

/-- Scanning a whole space-separated token list appends one raw
argument per token. -/
theorem parseLoop_toksLine (toks : List (String × Bool)) :
    ∀ cmd : command, cmd.name ≠ "" → (∀ tok ∈ toks, tokOk tok) →
      parseLoop cmd [] none false (toksLine toks) =
        parseFinish { cmd with rawArgs := cmd.rawArgs ++ toks.map tokFrags } := by
  induction toks with
  | nil =>
    intro cmd hname _
    rw [toksLine, parseLoop_nil]
    simp only [reduceIte, pushChunk]
    rw [show flushArg cmd [] = .ok cmd from by rw [flushArg]; simp]
    simp
  | cons tok toks ih =>
    intro cmd hname htoks
    match toks with
    | [] =>
      rw [toksLine_one, parseLoop_token_eol tok cmd hname (htoks tok (List.mem_cons_self ..))]
      simp
    | tok2 :: toks2 =>
      rw [toksLine_cons2, parseLoop_token_sep tok cmd _ hname (htoks tok (List.mem_cons_self ..))]
      rw [ih _ (by simpa using hname) (fun t ht => htoks t (List.mem_cons_of_mem _ ht))]
      simp [List.append_assoc]

theorem quoteOne_renderTok (a : String) : quoteOne a = renderTok (a, needsQuote a) := rfl

theorem quoteArgs_one (a : String) : quoteArgs [a] = quoteOne a := rfl

theorem quoteArgs_cons2 (a b : String) (rest : List String) :
    quoteArgs (a :: b :: rest) = quoteOne a ++ " " ++ quoteArgs (b :: rest) := rfl

theorem quoteArgs_data (args : List String) :
    (quoteArgs args).data = toksLine (args.map fun a => (a, needsQuote a)) := by
  induction args with
  | nil => rfl
  | cons a rest ih =>
    match rest with
    | [] => rw [quoteArgs_one, quoteOne_renderTok]; rfl
    | b :: rest2 =>
      rw [quoteArgs_cons2, List.map_cons, List.map_cons, toksLine_cons2,
        String.data_append, String.data_append, quoteOne_renderTok]
      rw [List.map_cons] at ih
      rw [ih]
      simp

/-- A separator flushes the open unquoted chunk as a fragment and the
pending raw argument as an argument. -/
theorem parseLoop_sep_flush (cmd : command) (rawArg : List argFragment) (acc : List Char)
    (rest : List Char) :
    parseLoop cmd rawArg (some acc) false (' ' :: rest) =
      match flushArg cmd (rawArg ++ [⟨⟨acc⟩, false⟩]) with
      | .error e => .error e
      | .ok cmd2 => parseLoop cmd2 [] none false rest := by
  rw [parseLoop_cons, if_pos (show ¬false = true ∧ (' ' : Char) ∈ argSepChars from by decide)]
  simp only [Option.getD_some, show ((' ' : Char) = '#') = False from by decide, if_false,
    ite_false, reduceIte, pushChunk]

/-- Scanning a line body that is the name `c` followed by rendered
tokens. -/
theorem parseLoop_c_toks (toks : List (String × Bool)) (h : ∀ tok ∈ toks, tokOk tok) :
    parseLoop ({ file := "s", line := 1 } : command) [] none false
        ('c' :: ' ' :: toksLine toks) =
      parseFinish { file := "s", line := 1, name := "c", rawArgs := toks.map tokFrags } := by
  rw [parseLoop_open_chunk 'c' _ _ _ (by decide), parseLoop_sep_flush]
  rw [show flushArg { file := "s", line := 1 } ([] ++ [⟨⟨['c']⟩, false⟩]) =
      .ok { file := "s", line := 1, name := "c" } from by decide]
  show parseLoop { file := "s", line := 1, name := "c" } [] none false (toksLine toks) = _
  rw [parseLoop_toksLine toks _ (by simp) h]
  simp

/-- `parseFinish` with a name and no trailing lone `&` argument. -/
theorem parseFinish_noBg (cmd : command) (h : cmd.name ≠ "")
    (h2 : cmd.rawArgs.getLast? ≠ some [⟨"&", false⟩]) :
    parseFinish cmd = .ok (some cmd) := by
  rw [parseFinish, if_neg h]
  split
  · rename_i heq
    exact absurd heq h2
  · rfl

/-- `parseFinish` with a name and a trailing lone `&` argument. -/
theorem parseFinish_bg (cmd : command) (h : cmd.name ≠ "")
    (h2 : cmd.rawArgs.getLast? = some [⟨"&", false⟩]) :
    parseFinish cmd =
      .ok (some { cmd with background := true, rawArgs := cmd.rawArgs.dropLast }) := by
  rw [parseFinish, if_neg h, h2]
  rfl

/-- The mapped tokens of a valid argument list are valid. -/
theorem toks_of_args_ok (args : List String) (h1 : ∀ a ∈ args, a ≠ "") :
    ∀ tok ∈ args.map (fun a => (a, needsQuote a)), tokOk tok := by
  intro tok ht
  rcases List.mem_map.mp ht with ⟨a, ha, rfl⟩
  by_cases hq : needsQuote a
  · simp [tokOk, hq]
  · simp only [tokOk, hq, if_false, ite_false, Bool.false_eq_true]
    refine ⟨h1 a ha, fun c hc hbad => ?_⟩
    rw [needsQuote] at hq
    exact hq (List.any_eq_true.mpr ⟨c, hc, by simpa using hbad⟩)

/-- A quoted token never parses to a single fragment (the closing
quote always leaves a trailing empty unquoted fragment). -/
theorem tokFrags_quoted_ne_single (a : String) (fr : argFragment) :
    tokFrags (a, true) ≠ [fr] := by
  intro h
  rw [tokFrags] at h
  simp only [if_pos rfl, ite_true] at h
  have hlen := congrArg List.length h
  rw [List.length_append] at hlen
  simp only [List.length_cons, List.length_nil] at hlen
  have h0 : (quotedFrags [] a.data).length = 0 := by omega
  exact quotedFrags_ne_nil a.data [] (List.length_eq_zero.mp h0)

theorem tokFrags_eq_amp (a : String) (b : Bool) :
    tokFrags (a, b) = [⟨"&", false⟩] → a = "&" := by
  intro h
  cases b
  · rw [tokFrags] at h
    simp at h
    exact h
  · exact absurd h (tokFrags_quoted_ne_single a _)

theorem toksLine_append_one (xs : List (String × Bool)) (y : String × Bool) (hxs : xs ≠ []) :
    toksLine (xs ++ [y]) = toksLine xs ++ ' ' :: (renderTok y).data := by
  induction xs with
  | nil => exact absurd rfl hxs
  | cons x xs ih =>
    cases xs with
    | nil => rfl
    | cons x2 xs2 =>
      rw [List.cons_append, List.cons_append, toksLine_cons2, toksLine_cons2,
        ← List.cons_append, ih (by simp)]
      simp [List.append_assoc]

theorem rawArgStrings_toks (l : List String) :
    ((l.map fun a => (a, needsQuote a)).map tokFrags).map argText = l := by
  induction l with
  | nil => rfl
  | cons a l ih =>
    simp only [List.map_cons, argText_tokFrags, List.cons.injEq]
    exact ⟨trivial, ih⟩

/-! ## Claims -/

/-- C2: for every parsed command whose expected status is Failure or
RetryUntilFailure, a nil dispatch outcome is reconciled to an
"unexpected success" command error; and with a command capability
that always succeeds, the script line `! that-command` makes the
whole script fail with exactly that error. -/
theorem unexpected_success_on_nil_error :
    (∀ c : command, c.want = failure ∨ c.want = failureRetryOnSuccess →
      checkStatus c none = some (cmdError c .unexpectedSuccess)) ∧
    okEngine.Execute {} "s" ["! that-command"] 5 =
      .done {} ["> ! that-command\n"]
        (some (.commandError "s" 1 "that-command" [] .unexpectedSuccess)) := by
  constructor
  · intro c h
    rw [checkStatus, if_pos h]
  · rfl

/-- Witness for C2 at a concrete command. -/
theorem unexpected_success_on_nil_error_witness :
    checkStatus { name := "x", want := failure } none =
      some (cmdError { name := "x", want := failure } .unexpectedSuccess) :=
  unexpected_success_on_nil_error.1 _ (Or.inl rfl)

/-- C3: a cancellation or deadline error under a Failure or
RetryUntilFailure expectation is propagated as a failure of the
assertion, never accepted as the expected failure. -/
theorem cancellation_fails_negative_assertion (c : command) (e : Err)
    (hw : c.want = failure ∨ c.want = failureRetryOnSuccess) (hc : e.isCancel = true) :
    checkStatus c (some e) = some (cmdError c e) := by
  rw [checkStatus]
  by_cases hs : e.isStop = true
  · simp [hs]
  · by_cases hwt : e.isWait = true
    · simp [hs, hwt]
    · rcases hw with hw | hw <;>
        simp [hs, hwt, hw, hc, failure, failureRetryOnSuccess, success,
          successRetryOnFailure]

/-- Witness for C3 at a concrete command and the canceled error. -/
theorem cancellation_fails_negative_assertion_witness :
    checkStatus { name := "x", want := failure } (some .canceled) =
      some (cmdError { name := "x", want := failure } .canceled) :=
  cancellation_fails_negative_assertion _ _ (Or.inl rfl) rfl

/-- C4: a background-wait error (a detached task's failure surfaced by
an explicit wait) is always propagated by status reconciliation,
whatever the awaiting line's expected status — the `∀ c` ranges over
every expectation, including Failure, RetryUntilFailure and
EitherSuccessOrFailure. -/
theorem wait_error_always_propagates (c : command) (e : Err) (hw : e.isWait = true) :
    checkStatus c (some e) = some (cmdError c e) := by
  rw [checkStatus]
  by_cases hs : e.isStop = true
  · simp [hs]
  · simp [hs, hw]

/-- Witness for C4 under the EitherSuccessOrFailure expectation. -/
theorem wait_error_always_propagates_witness :
    checkStatus { name := "w", want := successOrFailure } (some (.waitError (.msg "bg"))) =
      some (cmdError { name := "w", want := successOrFailure } (.waitError (.msg "bg"))) :=
  wait_error_always_propagates _ _ rfl

/-- C5 counterexample: with initial interval 2 and maximum 1 the first
wait is 2, not `min (2 * 2 ^ 0) 1 = 1`, and it exceeds the maximum;
the claimed formula fails when the configured initial interval
exceeds the configured maximum. -/
theorem backoff_first_wait_exceeds_max_cx :
    (exponentialBackoff.mk 1 2).nthWait 0 = 2 ∧ min (2 * 2 ^ 0) 1 = 1 ∧
      ¬((exponentialBackoff.mk 1 2).nthWait 0 ≤ 1) := by decide

/-- C5 (amended): provided the initial interval does not exceed the
maximum, the wait before the `(n+1)`-st retry is
`min (I * 2 ^ n) M`, and it never exceeds the maximum. -/
theorem backoff_wait_formula (I M n : Nat) (h : I ≤ M) :
    (exponentialBackoff.mk M I).nthWait n = min (I * 2 ^ n) M ∧
    (exponentialBackoff.mk M I).nthWait n ≤ M := by
  induction n generalizing I with
  | zero =>
    refine ⟨?_, ?_⟩
    · simp [exponentialBackoff.nthWait, exponentialBackoff.get, Nat.min_eq_left h]
    · simpa [exponentialBackoff.nthWait, exponentialBackoff.get] using h
  | succ n ih =>
    have h2 : min (I * 2) M ≤ M := Nat.min_le_right _ _
    have hih := ih (min (I * 2) M) h2
    have hstep : (exponentialBackoff.mk M I).nthWait (n + 1) =
        (exponentialBackoff.mk M (min (I * 2) M)).nthWait n := rfl
    have ha : 0 < 2 ^ n := Nat.pos_pow_of_pos n (by omega)
    have key : min (min (I * 2) M * 2 ^ n) M = min (I * 2 ^ (n + 1)) M := by
      rcases Nat.le_total (I * 2) M with hle | hle
      · rw [Nat.min_eq_left hle]
        congr 1
        rw [pow_succ]
        ring
      · rw [Nat.min_eq_right hle, Nat.min_eq_right (Nat.le_mul_of_pos_right M ha)]
        have hM : M ≤ I * 2 ^ (n + 1) := by
          calc M ≤ I * 2 := hle
            _ ≤ I * 2 * 2 ^ n := Nat.le_mul_of_pos_right _ ha
            _ = I * 2 ^ (n + 1) := by rw [pow_succ]; ring
        rw [Nat.min_eq_right hM]
    refine ⟨?_, ?_⟩
    · rw [hstep, hih.1, key]
    · rw [hstep]
      exact hih.2

/-- Witness for C5 at the default intervals. -/
theorem backoff_wait_formula_witness :
    (exponentialBackoff.mk 500 100).nthWait 3 = min (100 * 2 ^ 3) 500 ∧
    (exponentialBackoff.mk 500 100).nthWait 3 ≤ 500 :=
  backoff_wait_formula 100 500 3 (by decide)

/-- C1 counterexample: a script in which a command's dispatch outcome
is the stop error but whose line carries the RetryUntilSuccess marker
(`* stop`).  The second conjunct shows the dispatch outcome of the
line is the stop error; the first shows `Execute` does not halt
cleanly — it retries the section (the output records the retries)
until the deadline context cancels it and returns a non-nil
deadline error, and `cmd2` is never reached either way. -/
theorem stop_under_retry_cx :
    stopEngine.Execute { ctxDeadline := some 1000 } "s" ["* stop", "cmd2"] 20 =
      .done { retriesRequested := true, now := 1000, ctxDeadline := some 1000 }
        ["\n", "> * stop\n", retryNote "* stop" 100, retryNote "* stop" 200,
         retryNote "* stop" 400, retryNote "* stop" 500]
        (some (.atLine "s" 1 .deadlineExceeded)) ∧
    (stopEngine.runCommand { ctxDeadline := some 1000 }
        { file := "s", line := 1, want := successRetryOnFailure, name := "stop" }
        (stopEngine.Cmds.lookup "stop")).2.2 =
      some (.commandError "s" 1 "stop" [] (.stopError "stop")) := by
  constructor <;> rfl

/-- C1 (amended): for every script whose stop line carries no retry
marker — here `cmd1` then `stop` inside a section, followed by ANY
further lines `rest` (which need not even parse) — `Execute` runs
`cmd1` and the stop command, never reads a later line (the result
does not depend on `rest`), flushes the section as successful
(the section header, its elapsed-time note and the buffered section
log are written), logs the stop message after the flushed section,
and returns a nil error. -/
theorem stop_halts_script_cleanly (rest : List String) (fuel : Nat) :
    stopEngine.Execute {} "s" (["# sec", "cmd1", "stop"] ++ rest) fuel =
      .done { stdout := "cmd1()\n" }
        ["# sec", " (0)\n", "> cmd1\n", "[stdout]\ncmd1()\n", "> stop\n", "stop\n"]
        none := rfl

/-- C9: the condition gate is the conjunction over all declared
conditions of evaluation-result-equals-polarity (stated for the
engine whose conditions are the pure `always-true`/`always-false`
capabilities, over every condition list built from them); and on the
line `[always-false] cmd` the command's capability never runs, the
engine logs "condition not met", and the script continues and ends
with no error. -/
theorem condition_gate_and_skip :
    (∀ (s : State) (conds : List condition),
      (∀ cd ∈ conds, cd.tag = "always-true" ∨ cd.tag = "always-false") →
      condEngine.conditionsActive s conds =
        (s, conds.all fun cd => ((cd.tag == "always-true") == cd.want), none)) ∧
    condEngine.Execute {} "s" ["[always-false] cmd"] 5 =
      .done {} ["> [always-false] cmd\n", "[condition not met]\n"] none := by
  constructor
  · intro s conds h
    induction conds generalizing s with
    | nil => rfl
    | cons cd rest ih =>
      have hrest := fun x hx => h x (List.mem_cons_of_mem _ hx)
      obtain ⟨w, tag⟩ := cd
      rcases h _ (List.mem_cons_self ..) with ht | ht <;> simp only at ht <;> subst ht <;>
        cases w
      all_goals
        simp only [Engine.conditionsActive,
          show cutColon "always-true" = ("always-true", "", false) from by decide,
          show cutColon "always-false" = ("always-false", "", false) from by decide,
          show condEngine.Conds.lookup "always-true" = some alwaysTrueCond from rfl,
          show condEngine.Conds.lookup "always-false" = some alwaysFalseCond from rfl,
          show (("always-true" : String) == "always-true") = true from by decide,
          show (("always-false" : String) == "always-true") = false from by decide,
          alwaysTrueCond, alwaysFalseCond, List.all_cons, ne_eq, reduceIte,
          Bool.false_and, Bool.true_and]
      all_goals first
      | rfl
      | exact ih s hrest
  · rfl

/-- Witness for C9: a single negative condition yields an errorless
false gate. -/
theorem condition_gate_and_skip_witness :
    condEngine.conditionsActive {} [⟨true, "always-false"⟩] = ({}, false, none) := by
  have := condition_gate_and_skip.1 {} [⟨true, "always-false"⟩] (by decide)
  simpa using this

/-- C10: a retry replay re-dispatches every recorded command of the
section directly through `runCommand`.  The script guards `skipcmd $x`
behind the always-false condition and retries `flaky` (which fails
once, then succeeds).  The output trace shows: the guard is evaluated
exactly once (one `eval(always-false)` entry, logged by the condition
capability itself) and the skip is logged once; on the replay,
`skipcmd` is dispatched — with an empty argument list, because argument
expansion never ran for the skipped line (its `origArgs`/`args` were
never set); the second conjunct records that expansion, had it run,
would have produced `["VALUE"]`. -/
theorem retry_replays_skipped_without_guards :
    replayEngine.Execute { vars := [("x", "VALUE")] } "s"
        ["[always-false] skipcmd $x", "* flaky"] 10 =
      .done { vars := [("x", "VALUE"), ("flaky-ran", "1")], stdout := "skipcmd()\n",
              retriesRequested := true, now := 100 }
        ["\n", "> [always-false] skipcmd $x\n", "eval(always-false)\n",
         "[condition not met]\n", "> * flaky\n", retryNote "* flaky" 100,
         "[stdout]\nskipcmd()\n", retrySuccessNote "* flaky" 1 100] none ∧
    expandArgs { vars := [("x", "VALUE")] } [[⟨"$x", false⟩]] [] = ["VALUE"] := by
  constructor <;> rfl

/-- C6 counterexample: the empty string contains no quote and no
separator character, yet quoting the list with one empty argument
yields the empty line, which parses back to no arguments at all. -/
theorem quote_empty_arg_cx :
    quoteArgs [""] = "" ∧ parsedArgs ("c " ++ quoteArgs [""]) = some [] ∧
      ([] : List String) ≠ [""] := by decide

/-- C6 (amended): for every argument list whose strings are all
non-empty and whose final argument is not the bare literal `&`,
re-serialising with `quoteArgs` behind a command name and re-parsing
yields back exactly the same argument list (arguments containing
quotes or separators are quoted by `quoteArgs` and survive the round
trip). -/
theorem quote_parse_round_trip (args : List String) (h1 : ∀ a ∈ args, a ≠ "")
    (h2 : args.getLast? ≠ some "&") :
    ∃ c : command, parse "s" 1 ("c " ++ quoteArgs args) = .ok (some c) ∧
      rawArgStrings c = args ∧ c.name = "c" ∧ c.background = false ∧
      c.want = success ∧ c.conds = [] := by
  have hdata : ("c " ++ quoteArgs args).data =
      'c' :: ' ' :: toksLine (args.map fun a => (a, needsQuote a)) := by
    rw [String.data_append, quoteArgs_data]
    rfl
  have hparse : parse "s" 1 ("c " ++ quoteArgs args) =
      parseFinish { file := "s", line := 1, name := "c", rawArgs :=
        (args.map fun a => (a, needsQuote a)).map tokFrags } := by
    rw [parse, hdata]
    exact parseLoop_c_toks _ (toks_of_args_ok args h1)
  have hnoamp : (((args.map fun a => (a, needsQuote a)).map tokFrags) :
      List (List argFragment)).getLast? ≠ some [⟨"&", false⟩] := by
    rcases List.eq_nil_or_concat args with rfl | ⟨as, a, rfl⟩
    · simp
    · simp only [List.concat_eq_append] at h2 ⊢
      rw [List.map_append, List.map_append]
      simp only [List.map_cons, List.map_nil, List.getLast?_concat]
      intro hbad
      simp only [Option.some.injEq] at hbad
      have ha := tokFrags_eq_amp a (needsQuote a) hbad
      subst ha
      exact h2 (by simp [List.getLast?_concat])
  refine ⟨{ file := "s", line := 1, name := "c", rawArgs :=
      (args.map fun a => (a, needsQuote a)).map tokFrags }, ?_, ?_, rfl, rfl, rfl, rfl⟩
  · rw [hparse]
    exact parseFinish_noBg _ (by simp) hnoamp
  · simpa [rawArgStrings] using rawArgStrings_toks args

/-- Witness for C6 at a list with a separator-containing argument. -/
theorem quote_parse_round_trip_witness :
    ∃ c : command, parse "s" 1 ("c " ++ quoteArgs ["a b", "plain"]) = .ok (some c) ∧
      rawArgStrings c = ["a b", "plain"] ∧ c.name = "c" ∧ c.background = false ∧
      c.want = success ∧ c.conds = [] :=
  quote_parse_round_trip ["a b", "plain"] (by decide) (by decide)

/-- C7 counterexample: parsing the literal line consisting only of the
quoted text is a "missing command" parse error, not a single
argument — the quoted token cannot become a command name. -/
theorem dont_literal_line_missing_command_cx :
    parse "s" 1 "'Don''t communicate by sharing memory.'" = .error "missing command" := by
  decide

/-- C7 (amended): with a command name in front, the line parses to the
single argument with the doubled quote collapsed to one literal
quote; and in general, for EVERY string `a`, the quoted token built
by doubling the quotes of `a` parses back to the single argument `a`
(a doubled quote inside a quoted region never closes the region). -/
theorem quote_doubling_inside_region :
    parsedArgs "cmd 'Don''t communicate by sharing memory.'" =
      some ["Don't communicate by sharing memory."] ∧
    ∀ a : String, parsedArgs ("c " ++ renderTok (a, true)) = some [a] := by
  refine ⟨by decide, fun a => ?_⟩
  have hdata : ("c " ++ renderTok (a, true)).data = 'c' :: ' ' :: toksLine [(a, true)] := by
    rw [String.data_append]
    rfl
  rw [parsedArgs, parse, hdata, parseLoop_c_toks [(a, true)] (by simp [tokOk])]
  rw [parseFinish_noBg _ (by simp) (by
    simp only [List.map_cons, List.map_nil]
    intro hbad
    have hb : tokFrags (a, true) = [⟨"&", false⟩] := by simpa using hbad
    exact tokFrags_quoted_ne_single a _ hb)]
  simp [rawArgStrings, argText_tokFrags]

/-- C8 counterexample: on the line consisting of the lone unquoted
token `&`, parse makes `&` the command name; the command is not
marked background (the field stays at its default `false`). -/
theorem lone_amp_parses_as_name_cx :
    parse "s" 1 "&" = .ok (some { file := "s", line := 1, name := "&" }) := by decide

/-- C8 (amended): when the lone unquoted `&` is the final token AFTER
a command name, parse sets background and drops it from the
arguments; a final quoted token `&` keeps `&` as a literal argument
and does not set background. -/
theorem background_marker_after_name (args : List String) (h1 : ∀ a ∈ args, a ≠ "") :
    (∃ c : command, parse "s" 1 ("c " ++ quoteArgs (args ++ ["&"])) = .ok (some c) ∧
      c.background = true ∧ rawArgStrings c = args) ∧
    (∃ c : command, parse "s" 1 ("c " ++ quoteArgs args ++ " '&'") = .ok (some c) ∧
      c.background = false ∧ rawArgStrings c = args ++ ["&"]) := by
  constructor
  · have h1a : ∀ a ∈ args ++ ["&"], a ≠ "" := by
      intro a ha
      rcases List.mem_append.mp ha with ha | ha
      · exact h1 a ha
      · simp only [List.mem_singleton] at ha
        subst ha
        decide
    have hdata : ("c " ++ quoteArgs (args ++ ["&"])).data =
        'c' :: ' ' :: toksLine ((args ++ ["&"]).map fun a => (a, needsQuote a)) := by
      rw [String.data_append, quoteArgs_data]
      rfl
    have hparse : parse "s" 1 ("c " ++ quoteArgs (args ++ ["&"])) =
        .ok (some { file := "s", line := 1, name := "c", background := true, rawArgs :=
          (args.map fun a => (a, needsQuote a)).map tokFrags }) := by
      rw [parse, hdata, parseLoop_c_toks _ (toks_of_args_ok _ h1a)]
      rw [show ((args ++ ["&"]).map fun a => (a, needsQuote a)) =
          (args.map fun a => (a, needsQuote a)) ++ [("&", false)] from by
        rw [List.map_append]
        rfl]
      rw [List.map_append]
      rw [parseFinish_bg _ (by simp) (by
        simp only [List.map_cons, List.map_nil]
        exact List.getLast?_concat _)]
      simp [List.dropLast_concat]
    refine ⟨_, hparse, rfl, ?_⟩
    simpa [rawArgStrings] using rawArgStrings_toks args
  · match args, h1 with
    | [], _ =>
      exact ⟨{ file := "s", line := 1, name := "c", rawArgs :=
        [[⟨"&", true⟩, ⟨"", false⟩]] }, by decide, rfl, by decide⟩
    | a0 :: args2, h1 =>
      have hne : ((a0 :: args2).map fun a => (a, needsQuote a)) ≠ [] := by simp
      have hdata : ("c " ++ quoteArgs (a0 :: args2) ++ " '&'").data =
          'c' :: ' ' :: toksLine
            (((a0 :: args2).map fun a => (a, needsQuote a)) ++ [("&", true)]) := by
       rw [String.data_append, String.data_append, quoteArgs_data,
          toksLine_append_one _ _ hne]
       simp [List.append_assoc]
       rfl
      have htoks : ∀ tok ∈ ((a0 :: args2).map fun a => (a, needsQuote a)) ++ [("&", true)],
          tokOk tok := by
        intro tok ht
        rcases List.mem_append.mp ht with ht | ht
        · exact toks_of_args_ok _ h1 tok ht
        · simp only [List.mem_singleton] at ht
          subst ht
          simp [tokOk]
      have hparse : parse "s" 1 ("c " ++ quoteArgs (a0 :: args2) ++ " '&'") =
          .ok (some { file := "s", line := 1, name := "c", rawArgs :=
            ((a0 :: args2).map fun a => (a, needsQuote a)).map tokFrags
              ++ [tokFrags ("&", true)] }) := by
        rw [parse, hdata, parseLoop_c_toks _ htoks, List.map_append]
        rw [parseFinish_noBg _ (by simp) (by
          simp only [List.map_cons, List.map_nil, List.getLast?_concat]
          intro hbad
          have hb : tokFrags ("&", true) = [⟨"&", false⟩] := by simpa using hbad
          exact tokFrags_quoted_ne_single "&" _ hb)]
        rfl
      refine ⟨_, hparse, rfl, ?_⟩
      simp only [rawArgStrings, List.map_append]
      rw [rawArgStrings_toks (a0 :: args2)]
      simp [argText_tokFrags]

/-- Witness for C8 at the one-argument list. -/
theorem background_marker_after_name_witness :
    (∃ c : command, parse "s" 1 ("c " ++ quoteArgs (["a"] ++ ["&"])) = .ok (some c) ∧
      c.background = true ∧ rawArgStrings c = ["a"]) ∧
    (∃ c : command, parse "s" 1 ("c " ++ quoteArgs ["a"] ++ " '&'") = .ok (some c) ∧
      c.background = false ∧ rawArgStrings c = ["a"] ++ ["&"]) :=
  background_marker_after_name ["a"] (by decide)

end Script
